import Mathlib

/-!
# Verification of the guitar chord analysis core (`src/main.py`)

Shallow embedding of the pitch/fretboard/voicing functions of `src/main.py`.
Python strings are modelled as `List Char`; Python `int` as `Int` (octaves,
which are parsed from digit runs, as `Nat`); a Python value that is either an
`int` or a `str` (the fret slots of a voicing) as the sum type `FretVal`;
a function that can raise an exception returns `Option` (`none` = exception).
-/

/-- Constant `NOTE_ORDER` from `src/main.py`: the 12 canonical sharp-preferring
pitch-class names. -/
def NOTE_ORDER : List (List Char) :=
  [['C'], ['C','#'], ['D'], ['D','#'], ['E'], ['F'], ['F','#'], ['G'],
   ['G','#'], ['A'], ['A','#'], ['B']]

/-- Constant `STRINGS` from `src/main.py`: the standard tuning, low string first. -/
def STRINGS : List (List Char) :=
  [['E','2'], ['A','2'], ['D','3'], ['G','3'], ['B','3'], ['E','4']]

/-- Constant `MAX_FRET` from `src/main.py`. -/
def MAX_FRET : Nat := 12

/-- The character for decimal digit `d` (`d < 10`), code point `48 + d`. -/
def digitChar (d : Nat) : Char := Char.ofNat (48 + d)

/-- Decimal digits, least significant first; structural recursion on a fuel
argument so that terms reduce definitionally.  The fuel is an upper bound: any
`fuel > n` yields the digits of `n`. -/
def toDigitsRevAux : Nat → Nat → List Nat
  | 0, _ => []
  | fuel + 1, n => if n < 10 then [n] else (n % 10) :: toDigitsRevAux fuel (n / 10)

/-- Decimal digits of `n`, least significant first (each entry `< 10`). -/
def toDigitsRev (n : Nat) : List Nat := toDigitsRevAux (n + 1) n

/-- Decimal representation of a natural number, as Python `str` renders it. -/
def natRepr (n : Nat) : List Char := ((toDigitsRev n).map digitChar).reverse

/-- Decimal representation of an integer, as Python `str` renders it
(a leading minus sign for negative values). -/
def intRepr (z : Int) : List Char :=
  if z < 0 then '-' :: natRepr z.natAbs else natRepr z.toNat

/-- Numeric value of a run of decimal digit characters (Python `int` on a
digit string, most significant digit first). -/
def digitsVal (l : List Char) : Nat :=
  l.foldl (fun a c => 10 * a + (c.toNat - 48)) 0

/-- Python `int(s)`, modelled on the inputs this development reaches: a pure
run of decimal digits yields its value, anything else yields `none`
(`ValueError`).  This is faithful for digit runs and for strings with no
digits at all (such as `'x'`); Python's tolerance for underscores between
digits and for surrounding whitespace is not modelled, and no theorem here
quantifies over such mixed strings. -/
def strToInt (s : List Char) : Option Nat :=
  if s ≠ [] ∧ s.all Char.isDigit then some (digitsVal s) else none

/-- Function `parse_note` from `src/main.py`: scan for the first digit
character, split there, and read the remainder as the octave via Python
`int`.  `none` models the `ValueError` raised when no digit occurs; a
remainder that is not a pure digit run is also mapped to `none` (see
`strToInt` for the scope of that model). -/
def parse_note : List Char → Option (List Char × Nat)
  | [] => none
  | c :: rest =>
    if c.isDigit then (strToInt (c :: rest)).map (fun n => (([] : List Char), n))
    else (parse_note rest).map (fun p => (c :: p.1, p.2))

/-- Function `note_to_semitone` from `src/main.py`:
`NOTE_ORDER.index(name) + 12 * octave`; `none` models the `ValueError` of
`parse_note` or of `list.index` when the name is not in `NOTE_ORDER`. -/
def note_to_semitone (note : List Char) : Option Int :=
  match parse_note note with
  | none => none
  | some (name, octave) =>
    match NOTE_ORDER.indexOf? name with
    | none => none
    | some i => some ((i : Int) + 12 * (octave : Int))

/-- Function `semitone_to_note` from `src/main.py`:
`NOTE_ORDER[semitone % 12]` concatenated with `str(semitone // 12)`.
Python `%` with positive divisor is `Int.emod` (`%` here) and `//` is floor
division (`Int.fdiv`); both are total, so the function is total. -/
def semitone_to_note (semitone : Int) : List Char :=
  NOTE_ORDER.getD (semitone % 12).toNat [] ++ intRepr (semitone.fdiv 12)

/-- A fret slot of a voicing as the Python code receives it: either an `int`
(`num`) or a string (`str`), e.g. the muted marker `'X'` or one character of a
textual voicing such as `'x32010'`. -/
inductive FretVal where
  | num (n : Int)
  | str (s : List Char)
deriving DecidableEq, Repr

/-- Python `fret == 'X'` (string equality only; an `int` never equals `'X'`). -/
def fretIsX : FretVal → Bool
  | .num _ => false
  | .str s => s = ['X']

/-- Python `fret == 0` (an `int` compares equal to `0`; a string never does). -/
def fretIsZero : FretVal → Bool
  | .num n => n = 0
  | .str _ => false

/-- Python `int(fret)`: identity on an `int`, decimal parse on a string
(`none` models the `ValueError` on a non-numeric string such as `'x'`). -/
def fretToInt : FretVal → Option Int
  | .num n => some n
  | .str s => (strToInt s).map (fun n => (n : Int))

/-- Function `get_note_from_string_fret` from `src/main.py`.  Outer `none` models an
exception (`int('x')`, unparsable base note); `some none` is Python `None`
(muted); there is no fret-range check in the source. -/
def get_note_from_string_fret (base_note : List Char) (fret : FretVal) :
    Option (Option (List Char)) :=
  if fretIsX fret then some none
  else
    match note_to_semitone base_note, fretToInt fret with
    | some b, some f => some (some (semitone_to_note (b + f)))
    | _, _ => none

/-- The accumulation loop of `get_chord_notes_from_voicing`: for each
`(string, fret)` pair resolve the note and, when it is truthy (not `None`,
not the empty string), collect `note[:-1]`.  `none` models a raised
exception. -/
def notesLoop : List (List Char × FretVal) → Option (List (List Char))
  | [] => some []
  | (s, f) :: rest =>
    match get_note_from_string_fret s f with
    | none => none
    | some optNote =>
      match notesLoop rest with
      | none => none
      | some tail =>
        match optNote with
        | none => some tail
        | some [] => some tail
        | some (c :: cs) => some ((c :: cs).dropLast :: tail)

/-- Python string `≤` (lexicographic by code point, a proper prefix sorts
first), as a boolean function. -/
def lexLe : List Char → List Char → Bool
  | [], _ => true
  | _ :: _, [] => false
  | a :: as, b :: bs => if a = b then lexLe as bs else decide (a < b)

/-- Python `sorted(set(l))` on a list of strings: the distinct elements in
ascending lexicographic order. -/
def pySortedSet (l : List (List Char)) : List (List Char) :=
  List.insertionSort (fun a b => lexLe a b = true) l.dedup

/-- Function `get_chord_notes_from_voicing` from `src/main.py`: collect the `note[:-1]`
values of the truthy resolved notes, then `sorted(set(...))`. -/
def get_chord_notes_from_voicing (voicing : List FretVal) :
    Option (List (List Char)) :=
  (notesLoop (STRINGS.zip voicing)).map pySortedSet

/-- Python `note[:-1] if note else None` applied to the result of
`get_note_from_string_fret`, with exception pass-through. -/
def pcOrNone : Option (Option (List Char)) → Option (Option (List Char))
  | none => none
  | some none => some none
  | some (some []) => some none
  | some (some (c :: cs)) => some (some ((c :: cs).dropLast))

/-- First loop of `determine_root_note`: return on the first pair whose fret
compares equal to `0`.  Outer `none` = the loop fell through; `some r` = the
function returned (or raised, `r = none`) with result `r`. -/
def rootOpenLoop : List (List Char × FretVal) → Option (Option (Option (List Char)))
  | [] => none
  | (s, f) :: rest =>
    if fretIsZero f then some (pcOrNone (get_note_from_string_fret s f))
    else rootOpenLoop rest

/-- Second loop of `determine_root_note`: return on the first pair whose fret
is not the muted marker `'X'`. -/
def rootFirstLoop : List (List Char × FretVal) → Option (Option (Option (List Char)))
  | [] => none
  | (s, f) :: rest =>
    if fretIsX f then rootFirstLoop rest
    else some (pcOrNone (get_note_from_string_fret s f))

/-- Function `determine_root_note` from `src/main.py`: prefer the first open string,
then the first non-muted string, else `None`.  Outer `none` models an
exception, `some none` Python `None`. -/
def determine_root_note (voicing : List FretVal) : Option (Option (List Char)) :=
  match rootOpenLoop (STRINGS.zip voicing) with
  | some r => r
  | none =>
    match rootFirstLoop (STRINGS.zip voicing) with
    | some r => r
    | none => some none

/-- The scan loop of `get_fret_positions`: frets `0 .. MAX_FRET` whose
resolved note, with its last character dropped, lies in `target_notes`. -/
def fretScan (base : Int) (target_notes : List (List Char)) : List FretVal :=
  (List.range (MAX_FRET + 1)).foldr
    (fun (fret : Nat) acc =>
      if (semitone_to_note (base + (fret : Int))).dropLast ∈ target_notes
      then FretVal.num (fret : Int) :: acc else acc) []

/-- Function `get_fret_positions` from `src/main.py`: matching frets in ascending
order, then the muted marker `'X'`, unconditionally.  `none` models the
exception raised when the open-string note does not parse. -/
def get_fret_positions (string_note : List Char) (target_notes : List (List Char)) :
    Option (List FretVal) :=
  match note_to_semitone string_note with
  | none => none
  | some base => some (fretScan base target_notes ++ [FretVal.str ['X']])

/-- A well-formed `FretValue` in the sense of the spec's data model: a fret
number between `0` and the configured maximum (`MAX_FRET = 12`), or the muted
marker `'X'`. -/
def fretWF : FretVal → Bool
  | .num n => decide (0 ≤ n) && decide (n ≤ 12)
  | .str s => s = ['X']

/-- A well-formed `Voicing`: one well-formed `FretValue` per string. -/
def voicingWF (voicing : List FretVal) : Bool := voicing.all fretWF

/-- An open-string note string usable as a tuning slot: it parses to a
semitone value in `[0, 108)`, so every resolved note up to fret 12 keeps a
single-digit octave.  All six entries of `STRINGS` satisfy this. -/
def stringWF (s : List Char) : Bool :=
  match note_to_semitone s with
  | some v => decide (0 ≤ v) && decide (v ≤ 107)
  | none => false

/-- Well-formedness of one `(open-string note, fret value)` pair. -/
def pairWF (p : List Char × FretVal) : Bool := stringWF p.1 && fretWF p.2

/-- Modelled from the spec's words: the resolved pitch-class of a string
position — the canonical name at index `(semitone + fret) mod 12`. -/
def resolvedPcOf (s : List Char) (f : FretVal) : List Char :=
  NOTE_ORDER.getD ((((note_to_semitone s).getD 0 + (fretToInt f).getD 0) % 12)).toNat []

/-- Modelled from the spec's words (§4.3 `root_of` tie-break policy): the
first string, low to high, whose fret value is exactly `0`; otherwise the
first non-muted string; otherwise no root. -/
def root_of_spec (voicing : List FretVal) : Option (List Char) :=
  match (STRINGS.zip voicing).find? (fun p => fretIsZero p.2) with
  | some p => some (resolvedPcOf p.1 p.2)
  | none =>
    match (STRINGS.zip voicing).find? (fun p => !fretIsX p.2) with
    | some p => some (resolvedPcOf p.1 p.2)
    | none => none

/-- Pitch-class index: position of a canonical name in `NOTE_ORDER`. -/
def pcIndex (pc : List Char) : Nat := (NOTE_ORDER.indexOf? pc).getD 12

/-- Modelled from the spec's words: presentation "in a stable canonical order
(ascending pitch-class index)". -/
def sortByPcIndex (l : List (List Char)) : List (List Char) :=
  List.insertionSort (fun a b => pcIndex a ≤ pcIndex b) l

/-- The string of a valid `Note`: a canonical pitch-class name (index `i`
into `NOTE_ORDER`) followed by the decimal digits of a non-negative octave. -/
def validNote (i : Nat) (oct : Nat) : List Char :=
  NOTE_ORDER.getD i [] ++ natRepr oct

/-- Value of a digit list, least significant digit first. -/
def fromDigitsRev : List Nat → Nat
  | [] => 0
  | d :: rest => d + 10 * fromDigitsRev rest

theorem digitChar_toNat {d : Nat} (h : d < 10) : (digitChar d).toNat = 48 + d := by
  interval_cases d <;> decide

theorem digitChar_isDigit {d : Nat} (h : d < 10) : (digitChar d).isDigit = true := by
  interval_cases d <;> decide

theorem toDigitsRevAux_ne_nil (fuel n : Nat) (h : n < fuel) :
    toDigitsRevAux fuel n ≠ [] := by
  cases fuel with
  | zero => omega
  | succ fuel =>
    show (if n < 10 then [n] else (n % 10) :: toDigitsRevAux fuel (n / 10)) ≠ []
    split <;> simp

theorem toDigitsRevAux_lt (fuel n : Nat) (h : n < fuel) :
    ∀ d ∈ toDigitsRevAux fuel n, d < 10 := by
  induction fuel generalizing n with
  | zero => omega
  | succ fuel ih =>
    show ∀ d ∈ (if n < 10 then [n] else (n % 10) :: toDigitsRevAux fuel (n / 10)), d < 10
    split
    · simpa
    · intro d hd
      rcases List.mem_cons.mp hd with h1 | h2
      · omega
      · exact ih (n / 10) (by omega) d h2

theorem toDigitsRevAux_val (fuel n : Nat) (h : n < fuel) :
    fromDigitsRev (toDigitsRevAux fuel n) = n := by
  induction fuel generalizing n with
  | zero => omega
  | succ fuel ih =>
    show fromDigitsRev (if n < 10 then [n] else (n % 10) :: toDigitsRevAux fuel (n / 10)) = n
    split
    · simp [fromDigitsRev]
    · rw [fromDigitsRev, ih (n / 10) (by omega)]
      omega

theorem natRepr_ne_nil (n : Nat) : natRepr n ≠ [] := by
  unfold natRepr toDigitsRev
  intro hcon
  have h1 := toDigitsRevAux_ne_nil (n + 1) n (by omega)
  rcases h : toDigitsRevAux (n + 1) n with _ | ⟨d, rest⟩
  · exact h1 h
  · rw [h] at hcon
    simp at hcon

theorem natRepr_all_digits (n : Nat) : ∀ c ∈ natRepr n, c.isDigit = true := by
  intro c hc
  unfold natRepr toDigitsRev at hc
  rw [List.mem_reverse, List.mem_map] at hc
  obtain ⟨d, hd, rfl⟩ := hc
  exact digitChar_isDigit (toDigitsRevAux_lt (n + 1) n (by omega) d hd)

theorem foldl_digits (ds : List Nat) (hds : ∀ d ∈ ds, d < 10) (a : Nat) :
    List.foldl (fun a c => 10 * a + (c.toNat - 48)) a ((ds.map digitChar).reverse) =
      a * 10 ^ ds.length + fromDigitsRev ds := by
  induction ds generalizing a with
  | nil => simp [fromDigitsRev]
  | cons d rest ih =>
    have hd : d < 10 := hds d (List.mem_cons_self d rest)
    have hrest : ∀ x ∈ rest, x < 10 := fun x hx => hds x (List.mem_cons_of_mem d hx)
    rw [List.map_cons, List.reverse_cons, List.foldl_append, ih hrest a]
    simp only [List.foldl_cons, List.foldl_nil, digitChar_toNat hd, fromDigitsRev,
      List.length_cons]
    ring_nf
    omega

theorem digitsVal_natRepr (n : Nat) : digitsVal (natRepr n) = n := by
  unfold digitsVal natRepr toDigitsRev
  rw [foldl_digits _ (toDigitsRevAux_lt (n + 1) n (by omega)) 0,
    toDigitsRevAux_val (n + 1) n (by omega)]
  omega

theorem natRepr_single {n : Nat} (h : n < 10) : natRepr n = [digitChar n] := by
  unfold natRepr toDigitsRev toDigitsRevAux
  simp [h]

theorem intRepr_ofNat (n : Nat) : intRepr (n : Int) = natRepr n := by
  unfold intRepr
  rw [if_neg (by omega)]
  norm_num

theorem strToInt_digits (ds : List Char) (hne : ds ≠ [])
    (hds : ∀ c ∈ ds, c.isDigit = true) : strToInt ds = some (digitsVal ds) := by
  unfold strToInt
  rw [if_pos ⟨hne, List.all_eq_true.mpr hds⟩]

theorem parse_note_split (p ds : List Char) (hp : ∀ c ∈ p, c.isDigit = false)
    (hne : ds ≠ []) (hds : ∀ c ∈ ds, c.isDigit = true) :
    parse_note (p ++ ds) = some (p, digitsVal ds) := by
  induction p with
  | nil =>
    rcases ds with _ | ⟨d, rest⟩
    · exact absurd rfl hne
    · show parse_note (d :: rest) = _
      unfold parse_note
      rw [if_pos (hds d (List.mem_cons_self d rest)),
        strToInt_digits _ (by simp) hds]
      rfl
  | cons c p ih =>
    show parse_note (c :: (p ++ ds)) = _
    unfold parse_note
    rw [if_neg (by simp [hp c (List.mem_cons_self c p)]),
      ih (fun x hx => hp x (List.mem_cons_of_mem c hx))]
    rfl

theorem parse_note_no_digit (l : List Char) (h : ∀ c ∈ l, c.isDigit = false) :
    parse_note l = none := by
  induction l with
  | nil => rfl
  | cons c rest ih =>
    unfold parse_note
    rw [if_neg (by simp [h c (List.mem_cons_self c rest)]),
      ih (fun x hx => h x (List.mem_cons_of_mem c hx))]
    rfl

/-- For `r < 12` the `r`-th canonical name has no digit characters and
`list.index` recovers `r` from it. -/
theorem noteName_facts (r : Nat) (h : r < 12) :
    (∀ c ∈ NOTE_ORDER.getD r [], c.isDigit = false) ∧
      NOTE_ORDER.indexOf? (NOTE_ORDER.getD r []) = some r := by
  interval_cases r <;> exact ⟨by decide, by decide⟩

theorem note_to_semitone_validNote (i oct : Nat) (h : i < 12) :
    note_to_semitone (validNote i oct) = some ((i : Int) + 12 * (oct : Int)) := by
  unfold note_to_semitone validNote
  rw [parse_note_split _ _ (noteName_facts i h).1 (natRepr_ne_nil oct)
    (natRepr_all_digits oct), digitsVal_natRepr]
  dsimp only
  rw [(noteName_facts i h).2]

theorem semitone_to_note_eq (s q r : Int) (hs : s = 12 * q + r) (h0 : 0 ≤ r)
    (h1 : r < 12) : semitone_to_note s = NOTE_ORDER.getD r.toNat [] ++ intRepr q := by
  unfold semitone_to_note
  rw [Int.fdiv_eq_ediv s (by omega)]
  have hmod : s % 12 = r := by omega
  have hdiv : s / 12 = q := by omega
  rw [hmod, hdiv]

theorem semitone_to_note_ofNat (n : Nat) :
    semitone_to_note (n : Int) = validNote (n % 12) (n / 12) := by
  rw [semitone_to_note_eq (n : Int) ((n / 12 : Nat) : Int) ((n % 12 : Nat) : Int)
    (by push_cast; omega) (by omega) (by omega)]
  unfold validNote
  rw [intRepr_ofNat]
  congr 2

/-- C1: for every valid Note `n` (a canonical sharp-preferring pitch-class
name from the 12-element `NOTE_ORDER` paired with a non-negative octave
integer), `semitone_to_note(note_to_semitone(n)) == n`. -/
theorem C1_note_roundtrip (i : Nat) (h : i < 12) (oct : Nat) :
    (note_to_semitone (validNote i oct)).map semitone_to_note =
      some (validNote i oct) := by
  rw [note_to_semitone_validNote i oct h]
  show some (semitone_to_note _) = _
  rw [semitone_to_note_eq _ (oct : Int) (i : Int) (by ring) (by omega) (by omega)]
  unfold validNote
  rw [intRepr_ofNat]
  norm_num

theorem C1_witness :
    (note_to_semitone (validNote 1 4)).map semitone_to_note = some (validNote 1 4) ∧
      validNote 1 4 = ['C','#','4'] :=
  ⟨C1_note_roundtrip 1 (by decide) 4, by decide⟩

/-- C2: for every non-negative integer `s`,
`note_to_semitone(semitone_to_note(s)) == s`. -/
theorem C2_semitone_roundtrip (s : Int) (h : 0 ≤ s) :
    note_to_semitone (semitone_to_note s) = some s := by
  obtain ⟨n, rfl⟩ : ∃ n : Nat, s = (n : Int) := ⟨s.toNat, (Int.toNat_of_nonneg h).symm⟩
  rw [semitone_to_note_ofNat, note_to_semitone_validNote _ _ (Nat.mod_lt _ (by omega))]
  congr 1
  omega

theorem C2_witness : note_to_semitone (semitone_to_note 33) = some 33 :=
  C2_semitone_roundtrip 33 (by decide)

/-- C10: `semitone_to_note` is total on every integer (its type is
`Int → List Char`, with no error outcome: the source indexes `NOTE_ORDER`
with `semitone % 12`, always in range, and never raises) and implements
floor-division octave semantics: whenever `s = 12 * q + r` with
`0 ≤ r < 12` — i.e. `r = s mod 12` and `q = floor(s / 12)` — the result is
`NOTE_ORDER[r]` concatenated with the decimal rendering of `q`. -/
theorem C10_semitone_total_floor (s q r : Int) (hs : s = 12 * q + r)
    (h0 : 0 ≤ r) (h1 : r < 12) :
    semitone_to_note s = NOTE_ORDER.getD r.toNat [] ++ intRepr q :=
  semitone_to_note_eq s q r hs h0 h1

theorem C10_witness :
    semitone_to_note (-5) = NOTE_ORDER.getD 7 [] ++ intRepr (-1) ∧
      NOTE_ORDER.getD 7 [] ++ intRepr (-1) = ['G','-','1'] :=
  ⟨C10_semitone_total_floor (-5) (-1) 7 (by decide) (by decide) (by decide),
    by decide⟩

theorem semitone_to_note_ne_nil (w : Int) : semitone_to_note w ≠ [] := by
  unfold semitone_to_note intRepr
  intro hcon
  rcases List.append_eq_nil.mp hcon with ⟨-, h2⟩
  split at h2
  · simp at h2
  · exact natRepr_ne_nil _ h2

theorem semitone_dropLast (v : Nat) (h : v < 120) :
    (semitone_to_note (v : Int)).dropLast = NOTE_ORDER.getD (v % 12) [] := by
  rw [semitone_to_note_ofNat]
  unfold validNote
  rw [natRepr_single (show v / 12 < 10 by omega)]
  simp

theorem semitone_dropLast_int (w : Int) (h0 : 0 ≤ w) (h1 : w < 120) :
    (semitone_to_note w).dropLast = NOTE_ORDER.getD (w % 12).toNat [] := by
  obtain ⟨n, rfl⟩ : ∃ n : Nat, w = (n : Int) := ⟨w.toNat, (Int.toNat_of_nonneg h0).symm⟩
  rw [semitone_dropLast n (by omega)]
  congr 1

/-- C5 counterexample: resolving fret 13 (beyond the configured maximum 12)
does NOT fail — the source has no range check, and `E2 + 13` resolves to
`F3`. -/
theorem C5_counterexample :
    get_note_from_string_fret ['E','2'] (.num 13) = some (some ['F','3']) ∧
      get_note_from_string_fret ['E','2'] (.num 13) ≠ none := by decide

/-- C5 (amended): `get_note_from_string_fret` performs no fret-range
validation at all: for a base note that parses to semitone `sem`, every
integer fret `f` — negative or above `MAX_FRET` included — resolves to
`semitone_to_note (sem + f)`, never an error. -/
theorem C5_no_range_check (base : List Char) (sem : Int)
    (hbase : note_to_semitone base = some sem) (f : Int) :
    get_note_from_string_fret base (.num f) =
      some (some (semitone_to_note (sem + f))) := by
  unfold get_note_from_string_fret
  rw [if_neg (by simp [fretIsX]), hbase]
  rfl

theorem C5_witness :
    get_note_from_string_fret ['E','2'] (.num 13) =
        some (some (semitone_to_note (28 + 13))) ∧
      semitone_to_note (28 + 13) = ['F','3'] :=
  ⟨C5_no_range_check ['E','2'] 28 (by decide) 13, by decide⟩

/-- C6 counterexample: `parse_note("H4")` does NOT fail — the source never
checks the prefix against the recognized spellings, so it returns
`("H", 4)`. -/
theorem C6_counterexample : parse_note ['H','4'] = some (['H'], 4) := by decide

/-- C6 (amended): `parse_note` fails when no digit character is present —
`parse_note("C")` fails, having no octave digit — and when the text is a
non-digit prefix followed by a run of digits it succeeds with that split.
The prefix is NOT validated against the recognized spellings: `"H4"` parses
as `("H", 4)`, and an unrecognized spelling only fails later, in
`note_to_semitone`. -/
theorem C6_parse_note_behavior :
    (∀ l : List Char, (∀ c ∈ l, c.isDigit = false) → parse_note l = none) ∧
      (∀ p ds : List Char, (∀ c ∈ p, c.isDigit = false) → ds ≠ [] →
        (∀ c ∈ ds, c.isDigit = true) → parse_note (p ++ ds) = some (p, digitsVal ds)) ∧
      parse_note ['C'] = none ∧
      parse_note ['H','4'] = some (['H'], 4) ∧
      note_to_semitone ['H','4'] = none :=
  ⟨parse_note_no_digit, parse_note_split, by decide, by decide, by decide⟩

theorem C6_witness :
    parse_note ['x'] = none ∧
      parse_note (['C','#'] ++ ['1','1']) = some (['C','#'], 11) :=
  ⟨C6_parse_note_behavior.1 ['x'] (by decide),
    (C6_parse_note_behavior.2.1 ['C','#'] ['1','1'] (by decide) (by decide)
      (by decide)).trans (by decide)⟩

theorem foldr_if_filter {α β : Type} (p : α → Prop) [DecidablePred p]
    (g : α → β) (l : List α) :
    l.foldr (fun x acc => if p x then g x :: acc else acc) [] =
      (l.filter (fun x => decide (p x))).map g := by
  induction l with
  | nil => rfl
  | cons x rest ih =>
    by_cases hx : p x <;> simp [List.filter_cons, hx, ih]

/-- C7 counterexample: on open string `C9` with target set `{C}`, fret 12
resolves to `C10`, whose pitch-class is `C` (index `(108+12) mod 12 = 0`),
yet the returned positions are `[0, 'X']` — fret 12 is missing, because the
source extracts the pitch-class as `note[:-1]`, which yields `"C1"` for
`"C10"`. -/
theorem C7_counterexample :
    get_fret_positions ['C','9'] [['C']] = some [.num 0, .str ['X']] ∧
      NOTE_ORDER.getD ((108 + 12) % 12) [] = ['C'] ∧
      FretVal.num 12 ∉ [FretVal.num 0, FretVal.str ['X']] := by decide

/-- C7 (amended): for every open-string note whose semitone value is below
108 (so that octaves of resolved notes stay single-digit — true of every
standard tuning slot) and every target set, `get_fret_positions` returns
exactly the frets `0 .. MAX_FRET` whose resolved pitch-class is in the
target set, in ascending fret order, with the muted marker appended last
unconditionally; the empty target set yields only the marker.  (For open
strings at octave ≥ 10 the `note[:-1]` pitch-class extraction misfires, see
the counterexample.) -/
theorem C7_positions (string_note : List Char) (targets : List (List Char))
    (sem : Nat) (hbase : note_to_semitone string_note = some (sem : Int))
    (hlt : sem < 108) :
    get_fret_positions string_note targets =
        some ((((List.range (MAX_FRET + 1)).filter
            (fun f => decide (NOTE_ORDER.getD ((sem + f) % 12) [] ∈ targets))).map
              (fun (f : Nat) => FretVal.num (f : Int))) ++ [FretVal.str ['X']]) ∧
      get_fret_positions string_note [] = some [FretVal.str ['X']] := by
  have key : ∀ ts : List (List Char), get_fret_positions string_note ts =
      some ((((List.range (MAX_FRET + 1)).filter
          (fun f => decide (NOTE_ORDER.getD ((sem + f) % 12) [] ∈ ts))).map
            (fun (f : Nat) => FretVal.num (f : Int))) ++ [FretVal.str ['X']]) := by
    intro ts
    have hscan : fretScan (sem : Int) ts =
        ((List.range (MAX_FRET + 1)).filter
          (fun f => decide (NOTE_ORDER.getD ((sem + f) % 12) [] ∈ ts))).map
            (fun (f : Nat) => FretVal.num (f : Int)) := by
      unfold fretScan
      rw [foldr_if_filter (fun (f : Nat) =>
        (semitone_to_note ((sem : Int) + (f : Int))).dropLast ∈ ts)
        (fun (f : Nat) => FretVal.num (f : Int)) (List.range (MAX_FRET + 1))]
      congr 1
      apply List.filter_congr
      intro f hf
      have hf13 : f < 13 := by simpa [MAX_FRET] using List.mem_range.mp hf
      have hcast : ((sem : Int) + (f : Int)) = ((sem + f : Nat) : Int) := by push_cast; ring
      rw [hcast, semitone_dropLast (sem + f) (by omega)]
    unfold get_fret_positions
    rw [hbase]
    dsimp only
    rw [hscan]
  refine ⟨key targets, ?_⟩
  rw [key []]
  rfl

theorem C7_witness :
    get_fret_positions ['A','2'] [['C'],['E']] =
      some [FretVal.num 3, FretVal.num 7, FretVal.str ['X']] := by
  have h := C7_positions ['A','2'] [['C'],['E']] 33 (by decide) (by decide)
  rw [h.1]
  decide

/-- C8 counterexample: `positions_for("A2", {"C","E"})` is `[3, 7, 'X']` —
fret 8 is NOT included (A2 + 8 semitones is F3, not E). -/
theorem C8_counterexample :
    get_fret_positions ['A','2'] [['C'],['E']] =
        some [FretVal.num 3, FretVal.num 7, FretVal.str ['X']] ∧
      FretVal.num 8 ∉ [FretVal.num 3, FretVal.num 7, FretVal.str ['X']] := by decide

/-- C8 (amended): `positions_for("A2", {"C","E"})` returns `[3, 7, 'X']`:
it includes fret 3 (A2+3 = C3) and fret 7 (A2+7 = E3), in ascending order,
with the muted marker as the last element; fret 8 resolves to F3 and is
excluded. -/
theorem C8_positions_A2_CE :
    get_fret_positions ['A','2'] [['C'],['E']] =
        some [FretVal.num 3, FretVal.num 7, FretVal.str ['X']] ∧
      FretVal.num 3 ∈ [FretVal.num 3, FretVal.num 7, FretVal.str ['X']] ∧
      FretVal.num 7 ∈ [FretVal.num 3, FretVal.num 7, FretVal.str ['X']] ∧
      [FretVal.num 3, FretVal.num 7, FretVal.str ['X']].getLast? =
        some (FretVal.str ['X']) ∧
      semitone_to_note (33 + 8) = ['F','3'] := by decide

theorem lexLe_total (a b : List Char) : lexLe a b = true ∨ lexLe b a = true := by
  induction a generalizing b with
  | nil => left; rfl
  | cons x xs ih =>
    cases b with
    | nil => right; rfl
    | cons y ys =>
      show (if x = y then lexLe xs ys else decide (x < y)) = true ∨
        (if y = x then lexLe ys xs else decide (y < x)) = true
      by_cases hxy : x = y
      · rw [if_pos hxy, if_pos hxy.symm]
        subst hxy
        exact ih ys
      · rw [if_neg hxy, if_neg (Ne.symm hxy)]
        rcases lt_or_gt_of_ne hxy with h | h
        · left; exact decide_eq_true h
        · right; exact decide_eq_true h

theorem lexLe_trans (a b c : List Char) (h1 : lexLe a b = true)
    (h2 : lexLe b c = true) : lexLe a c = true := by
  induction a generalizing b c with
  | nil => rfl
  | cons x xs ih =>
    cases b with
    | nil => exact absurd h1 (by simp [lexLe])
    | cons y ys =>
      cases c with
      | nil => exact absurd h2 (by simp [lexLe])
      | cons z zs =>
        simp only [lexLe] at h1 h2 ⊢
        by_cases hxy : x = y
        · subst hxy
          rw [if_pos rfl] at h1
          by_cases hyz : x = z
          · subst hyz
            rw [if_pos rfl] at h2 ⊢
            exact ih ys zs h1 h2
          · rw [if_neg hyz] at h2 ⊢
            exact h2
        · rw [if_neg hxy] at h1
          have hlt : x < y := of_decide_eq_true h1
          by_cases hyz : y = z
          · subst hyz
            rw [if_neg hxy]
            exact decide_eq_true hlt
          · rw [if_neg hyz] at h2
            have hlt2 : y < z := of_decide_eq_true h2
            have hxz : x < z := lt_trans hlt hlt2
            rw [if_neg (ne_of_lt hxz)]
            exact decide_eq_true hxz

/-- C3 counterexample: the Am voicing `x02210` sounds the pitch-classes
`{A, C, E}`; the code returns them in ascending lexicographic string order
`[A, C, E]`, but ascending pitch-class index order (C = 0, E = 4, A = 9)
would be `[C, E, A]`. -/
theorem C3_counterexample :
    get_chord_notes_from_voicing
        [.str ['X'], .num 0, .num 2, .num 2, .num 1, .num 0] =
      some [['A'],['C'],['E']] ∧
    sortByPcIndex [['A'],['C'],['E']] = [['C'],['E'],['A']] ∧
    ([['A'],['C'],['E']] : List (List Char)) ≠ [['C'],['E'],['A']] := by decide

/-- C3 (amended): for every voicing whose note-collection loop succeeds with
raw pitch-class list `raw`, `get_chord_notes_from_voicing` returns the
deduplicated elements of `raw` presented in ascending LEXICOGRAPHIC order of
the pitch-class names (Python `sorted` on strings) — not in ascending
pitch-class index order: each element of the result is a sounding
pitch-class, there are no duplicates, and the list is ascending
lexicographically. -/
theorem C3_notes_lex_order (voicing : List FretVal) (raw : List (List Char))
    (h : notesLoop (STRINGS.zip voicing) = some raw) :
    get_chord_notes_from_voicing voicing = some (pySortedSet raw) ∧
      List.Pairwise (fun a b => lexLe a b = true) (pySortedSet raw) ∧
      (pySortedSet raw).Nodup ∧
      (∀ x, x ∈ pySortedSet raw ↔ x ∈ raw) := by
  have hperm : List.Perm (pySortedSet raw) raw.dedup := List.perm_insertionSort _ _
  refine ⟨?_, ?_, ?_, ?_⟩
  · unfold get_chord_notes_from_voicing
    rw [h]
    rfl
  · haveI : IsTotal (List Char) (fun a b => lexLe a b = true) := ⟨lexLe_total⟩
    haveI : IsTrans (List Char) (fun a b => lexLe a b = true) := ⟨lexLe_trans⟩
    exact List.sorted_insertionSort _ _
  · exact hperm.nodup_iff.mpr (List.nodup_dedup raw)
  · intro x
    rw [hperm.mem_iff, List.mem_dedup]

theorem C3_witness :
    get_chord_notes_from_voicing
        [.str ['X'], .num 0, .num 2, .num 2, .num 1, .num 0] =
      some (pySortedSet [['A'],['E'],['A'],['C'],['E']]) :=
  (C3_notes_lex_order [.str ['X'], .num 0, .num 2, .num 2, .num 1, .num 0]
    [['A'],['E'],['A'],['C'],['E']] (by decide)).1

theorem resolve_wf (s : List Char) (f : FretVal) (hs : stringWF s = true)
    (hf : fretWF f = true) (hx : fretIsX f = false) :
    pcOrNone (get_note_from_string_fret s f) = some (some (resolvedPcOf s f)) := by
  cases f with
  | str t =>
    exfalso
    have ht : t = ['X'] := by simpa [fretWF] using hf
    subst ht
    simp [fretIsX] at hx
  | num n =>
    have hn : 0 ≤ n ∧ n ≤ 12 := by simpa [fretWF] using hf
    cases hv : note_to_semitone s with
    | none =>
      exfalso
      unfold stringWF at hs
      rw [hv] at hs
      exact absurd hs (by simp)
    | some v =>
      have hvb : 0 ≤ v ∧ v ≤ 107 := by
        unfold stringWF at hs
        rw [hv] at hs
        simpa using hs
      unfold get_note_from_string_fret
      rw [if_neg (by simp [fretIsX]), hv]
      show pcOrNone (some (some (semitone_to_note (v + n)))) = _
      cases hnote : semitone_to_note (v + n) with
      | nil => exact absurd hnote (semitone_to_note_ne_nil _)
      | cons c cs =>
        show some (some ((c :: cs).dropLast)) = _
        rw [← hnote, semitone_dropLast_int (v + n) (by omega) (by omega)]
        unfold resolvedPcOf
        rw [hv]
        rfl

theorem rootOpenLoop_eq (pairs : List (List Char × FretVal))
    (h : pairs.all pairWF = true) :
    rootOpenLoop pairs = (pairs.find? (fun p => fretIsZero p.2)).map
      (fun p => some (some (resolvedPcOf p.1 p.2))) := by
  induction pairs with
  | nil => rfl
  | cons p rest ih =>
    obtain ⟨s, f⟩ := p
    have hp : pairWF (s, f) = true ∧ rest.all pairWF = true := by
      simp only [List.all_cons, Bool.and_eq_true] at h
      exact h
    have hsf : stringWF s = true ∧ fretWF f = true := by
      have h1 := hp.1
      unfold pairWF at h1
      rw [Bool.and_eq_true] at h1
      exact h1
    show (if fretIsZero f then some (pcOrNone (get_note_from_string_fret s f))
      else rootOpenLoop rest) =
      (List.find? (fun p => fretIsZero p.2) ((s, f) :: rest)).map
        (fun p => some (some (resolvedPcOf p.1 p.2)))
    by_cases hz : fretIsZero f = true
    · have hfind : List.find? (fun p => fretIsZero p.2) ((s, f) :: rest) = some (s, f) := by
        simp [hz]
      rw [if_pos hz, hfind]
      have hx : fretIsX f = false := by
        cases f with
        | num n => rfl
        | str t => simp [fretIsZero] at hz
      rw [resolve_wf s f hsf.1 hsf.2 hx]
      rfl
    · have hfind : List.find? (fun p => fretIsZero p.2) ((s, f) :: rest) =
          List.find? (fun p => fretIsZero p.2) rest := by
        simp [hz]
      rw [if_neg hz, hfind, ih hp.2]

theorem rootFirstLoop_eq (pairs : List (List Char × FretVal))
    (h : pairs.all pairWF = true) :
    rootFirstLoop pairs = (pairs.find? (fun p => !fretIsX p.2)).map
      (fun p => some (some (resolvedPcOf p.1 p.2))) := by
  induction pairs with
  | nil => rfl
  | cons p rest ih =>
    obtain ⟨s, f⟩ := p
    have hp : pairWF (s, f) = true ∧ rest.all pairWF = true := by
      simp only [List.all_cons, Bool.and_eq_true] at h
      exact h
    have hsf : stringWF s = true ∧ fretWF f = true := by
      have h1 := hp.1
      unfold pairWF at h1
      rw [Bool.and_eq_true] at h1
      exact h1
    show (if fretIsX f then rootFirstLoop rest
      else some (pcOrNone (get_note_from_string_fret s f))) =
      (List.find? (fun p => !fretIsX p.2) ((s, f) :: rest)).map
        (fun p => some (some (resolvedPcOf p.1 p.2)))
    by_cases hx : fretIsX f = true
    · have hfind : List.find? (fun p => !fretIsX p.2) ((s, f) :: rest) =
          List.find? (fun p => !fretIsX p.2) rest := by
        simp [hx]
      rw [if_pos hx, hfind, ih hp.2]
    · have hfind : List.find? (fun p => !fretIsX p.2) ((s, f) :: rest) = some (s, f) := by
        simp [hx]
      rw [if_neg hx, hfind, resolve_wf s f hsf.1 hsf.2 (by simpa using hx)]
      rfl

/-- C4: for every well-formed voicing (each slot a fret number `0..12` or the
muted marker), `determine_root_note` evaluates strings low to high and
returns the resolved pitch-class of the first string fretted exactly `0` if
one exists, else the resolved pitch-class of the first non-muted string, and
`None` when every string is muted (this is `root_of_spec`, the spec's
tie-break rule).  In particular, voicing `022100` on the standard tuning
yields root `E`. -/
theorem C4_root_rule :
    (∀ voicing : List FretVal, voicingWF voicing = true →
      determine_root_note voicing = some (root_of_spec voicing)) ∧
      determine_root_note [.num 0, .num 2, .num 2, .num 1, .num 0, .num 0] =
        some (some ['E']) := by
  constructor
  · intro voicing hwf
    have hall : (STRINGS.zip voicing).all pairWF = true := by
      rw [List.all_eq_true]
      intro p hp
      obtain ⟨s, f⟩ := p
      have h1 : s ∈ STRINGS := (List.of_mem_zip hp).1
      have h2 : f ∈ voicing := (List.of_mem_zip hp).2
      have hsWF : stringWF s = true := by fin_cases h1 <;> decide
      have hfWF : fretWF f = true := by
        rw [voicingWF, List.all_eq_true] at hwf
        exact hwf f h2
      simp [pairWF, hsWF, hfWF]
    unfold determine_root_note root_of_spec
    rw [rootOpenLoop_eq _ hall, rootFirstLoop_eq _ hall]
    cases h1 : (STRINGS.zip voicing).find? (fun p => fretIsZero p.2) with
    | some p => rfl
    | none =>
      cases h2 : (STRINGS.zip voicing).find? (fun p => !fretIsX p.2) with
      | some p => rfl
      | none => rfl
  · decide

theorem C4_witness :
    determine_root_note (List.replicate 6 (FretVal.str ['X'])) =
        some (root_of_spec (List.replicate 6 (FretVal.str ['X']))) ∧
      root_of_spec (List.replicate 6 (FretVal.str ['X'])) = none :=
  ⟨C4_root_rule.1 _ (by decide), by decide⟩

/-- C9: the claim holds for the UPPERCASE muted marker (`"XXXXXX"` gives the
empty pitch-class set and root `None`) but the code crashes on the lowercase
one: `get_note_from_string_fret` only compares against `'X'`, so a lowercase
`'x'` slot falls through to `int('x')`, which raises `ValueError` (modelled
as `none`).  The repository's own chord table writes voicings with lowercase
`x` (e.g. `'x32010'`), and the spec's voicing text encoding admits `x`/`X`,
so the lowercase behavior is a code bug. -/
theorem C9_lowercase_mute_crash :
    get_chord_notes_from_voicing (List.replicate 6 (.str ['x'])) = none ∧
      determine_root_note (List.replicate 6 (.str ['x'])) = none ∧
      get_chord_notes_from_voicing (List.replicate 6 (.str ['X'])) = some [] ∧
      determine_root_note (List.replicate 6 (.str ['X'])) = some none := by decide
